import Mathlib

/-!
Verification development for the `hu` command-line tool, a pair of utilities
for Hugo-style static sites:

* `hu/commands/links_404.py` — a broken-internal-link checker
  (`extract_links_from_markdown`, `is_internal_link`, `check_internal_link`,
  `find_broken_links`, `check_404_links`);
* `hu/commands/svg.py` — a social-preview SVG generator
  (`read_frontmatter`, `wrap_by_width`, `tspans_center`, `make_svg`).

The Python code is shallowly embedded: Python strings become `List Char`
(`Str` below), the filesystem becomes an explicit finite list of file paths
with optional contents, code that can raise becomes `Except`/`Option`,
and the relevant pieces of the CPython standard library that the code calls
(`urllib.parse.urlparse`, `pathlib.Path` suffix/`exists`, `str.split`,
`xml.sax.saxutils.escape`) are modelled from their documented semantics.
-/

/-- Python strings are finite sequences of code points. -/
abbrev Str := List Char

namespace Hu

/-! ## Generic Python string helpers -/

/-- `s.startswith(c)` for a single character. -/
def startsWithChar (c : Char) (s : Str) : Bool :=
  match s with
  | [] => false
  | d :: _ => d = c

/-- `s.rstrip('/')`: remove every trailing `'/'`. -/
def rstripSlash (s : Str) : Str :=
  (s.reverse.dropWhile (fun c => c = '/')).reverse

/-- `s.strip(c)` for a single character `c`: remove every leading and
trailing occurrence of `c`. -/
def stripAllChar (c : Char) (s : Str) : Str :=
  ((s.dropWhile (fun d => d = c)).reverse.dropWhile (fun d => d = c)).reverse

/-- `s.strip()` (default whitespace stripping; the model uses Lean's
ASCII whitespace predicate for Python's whitespace class). -/
def pyStrip (s : Str) : Str :=
  ((s.dropWhile Char.isWhitespace).reverse.dropWhile Char.isWhitespace).reverse

/-- `s.lstrip()`. -/
def lstripWS (s : Str) : Str := s.dropWhile Char.isWhitespace

/-- Split a string at every occurrence of the character `sep`
(Python `s.split(sep)`, keeping empty pieces). -/
def splitOnChar (sep : Char) : Str → List Str
  | [] => [[]]
  | c :: cs =>
    if c = sep then [] :: splitOnChar sep cs
    else
      match splitOnChar sep cs with
      | [] => [[c]]
      | w :: ws => (c :: w) :: ws

/-- Python `str.split()` with no argument: split on runs of whitespace,
discarding empty pieces.  `acc` accumulates the word currently being read. -/
def splitWGo (acc : Str) : Str → List Str
  | [] => if acc.isEmpty then [] else [acc]
  | c :: cs =>
    if c.isWhitespace then
      if acc.isEmpty then splitWGo [] cs else acc :: splitWGo [] cs
    else splitWGo (acc ++ [c]) cs

/-- Python `text.split()` (whitespace word splitting). -/
def pySplit (s : Str) : List Str := splitWGo [] s

/-- `"\n".join`-style joining with a single-character separator. -/
def joinWith (sep : Char) (ps : List Str) : Str :=
  match ps with
  | [] => []
  | p :: ps' => p ++ (ps'.map (fun q => sep :: q)).flatten

/-- Joining word lists with single spaces (how `wrap_by_width` builds lines). -/
def joinSpace (ws : List Str) : Str := joinWith ' ' ws

/-! ## `svg.py`: `wrap_by_width` (word wrap) -/

/-- The per-line character budget of `wrap_by_width`:
`max_chars = max(8, int((width - 2 * margin) / (font_size * 0.55)))`.
The Python code computes this with floats; the model uses the exact
rational value `0.55 = 11/20`, so the budget is
`max 8 ((width - 2*margin) * 20 / (11 * font_size))` (natural floor
division; for `width < 2*margin` both the float code and the model are
clamped to `8` by the `max`). -/
def maxCharsOf (font_size width margin : Nat) : Nat :=
  max 8 ((width - 2 * margin) * 20 / (11 * font_size))

/-- The greedy packing loop of `wrap_by_width` (lines 65–75 of `svg.py`):
`cur` is the line being assembled; a word is appended (with a joining
space) when the grown line still fits in `maxC`, otherwise the current
line is emitted and the word starts a new line. -/
def wrapLoop (maxC : Nat) : List Str → Str → List Str
  | [], cur => if cur.isEmpty then [] else [cur]
  | w :: ws, cur =>
    let add := (if cur.isEmpty then [] else [' ']) ++ w
    if cur.length + add.length ≤ maxC then
      wrapLoop maxC ws (cur ++ add)
    else
      (if cur.isEmpty then [] else [cur]) ++ wrapLoop maxC ws w

/-- `wrap_by_width(text, font_size, width, margin)` from `svg.py`. -/
def wrap_by_width (text : Str) (font_size width margin : Nat) : List Str :=
  if text.isEmpty then []
  else wrapLoop (maxCharsOf font_size width margin) (pySplit text) []

/-! ## `svg.py`: escaping and tspan bodies -/

/-- `xml.sax.saxutils.escape` (no extra entities): replace `&` by `&amp;`,
`<` by `&lt;` and `>` by `&gt;`.  The sequential `str.replace` calls of the
library are equivalent to this single character-by-character pass, because
no replacement string contains a character that a later replacement
rewrites (the `&` introduced by `&lt;`/`&gt;` is not revisited). -/
def escapeXml : Str → Str
  | [] => []
  | c :: cs =>
    (if c = '&' then "&amp;".data
     else if c = '<' then "&lt;".data
     else if c = '>' then "&gt;".data
     else [c]) ++ escapeXml cs

/-- `true` when every `&` in the string starts one of the XML escape
entities `&amp;` `&lt;` `&gt;` `&quot;` — i.e. there is no *unescaped*
ampersand. -/
def ampEscaped : Str → Bool
  | [] => true
  | c :: rest =>
    (c != '&' || "amp;".data.isPrefixOf rest || "lt;".data.isPrefixOf rest ||
      "gt;".data.isPrefixOf rest || "quot;".data.isPrefixOf rest) && ampEscaped rest

/-- Decimal rendering of a natural number, as Python `str()` would. -/
def natStr (n : Nat) : Str := (Nat.repr n).data

/-- One `<tspan ...>` element as built by `tspans_center` in `svg.py`:
the body between the attributes and `</tspan>` is exactly `escape(line)`. -/
def tspanFor (cx : Nat) (dy : Str) (line : Str) : Str :=
  "<tspan x=\"".data ++ natStr cx ++ "\" dy=\"".data ++ dy ++
    "\">".data ++ escapeXml line ++ "</tspan>".data

/-- `tspans_center(lines, line_height, cx)` from `svg.py`: the individual
tspans joined by `"\n        "`. -/
def tspans_center (lines : List Str) (line_height cx : Nat) : Str :=
  match lines.enum.map
      (fun p => tspanFor cx (if p.1 = 0 then "0".data else natStr line_height) p.2) with
  | [] => []
  | t :: ts => t ++ (ts.map (fun q => "\n        ".data ++ q)).flatten

/-- The text bodies of every `<tspan>` element that `make_svg title desc`
places in its output (title lines first, then description lines; title
font size 52, description font size 30, margin 80 — the fixed constants of
`make_svg`). -/
def tspanBodies (title desc : Str) (width : Nat) : List Str :=
  (wrap_by_width title 52 width 80 ++ wrap_by_width desc 30 width 80).map escapeXml

/-! ## `links_404.py`: the Link Extractor

`extract_links_from_markdown` finds markdown inline links with the regex
`\[([^\]]+)\]\(([^)]+)\)` and HTML anchors with
`<a\s+(?:[^>]*?\s+)?href="([^"]*)"`, then keeps the non-empty targets
(markdown targets first, then HTML targets, in scan order).
Both regexes are modelled by direct left-to-right scans: the character
classes exclude their own delimiters, so the regex engine's behaviour is
deterministic — at each position a match either succeeds with the maximal
runs or the scan advances one character. -/

/-- Scan for `\[([^\]]+)\]\(([^)]+)\)`: at a `[`, the label is the run of
non-`]` characters (must be non-empty), then `](`, then the target is the
run of non-`)` characters (must be non-empty), then `)`.  On success the
scan resumes after the closing parenthesis; on failure it advances one
character, as `re.findall` does.  The `fuel` argument only serves
structural termination; one unit is spent per scan step, and every step
consumes at least one character, so `fuel = s.length` (as `mdScan` passes)
is always enough. -/
def mdScanF : Nat → Str → List (Str × Str)
  | 0, _ => []
  | _ + 1, [] => []
  | fuel + 1, c :: cs =>
    if c = '[' then
      match cs.dropWhile (fun d => d != ']') with
      | ']' :: '(' :: rest2 =>
        if (cs.takeWhile (fun d => d != ']')).isEmpty then mdScanF fuel cs
        else
          match rest2.dropWhile (fun d => d != ')') with
          | ')' :: tail =>
            if (rest2.takeWhile (fun d => d != ')')).isEmpty then mdScanF fuel cs
            else
              (cs.takeWhile (fun d => d != ']'), rest2.takeWhile (fun d => d != ')')) ::
                mdScanF fuel tail
          | _ => mdScanF fuel cs
      | _ => mdScanF fuel cs
    else mdScanF fuel cs

/-- All `(label, target)` matches of the markdown-link regex. -/
def mdScan (s : Str) : List (Str × Str) := mdScanF s.length s

/-- Helper for the HTML-anchor regex: after `<a` and at least one
whitespace character, walk forward through attribute characters (which may
not contain `>`), looking for `href="` immediately preceded by whitespace;
capture the run of non-quote characters and require the closing quote.
`prevWS` records whether the previously consumed character was whitespace
(the regex requires `\s+` directly before `href`). -/
def findHrefGo : Bool → Str → Option (Str × Str)
  | _, [] => none
  | prevWS, c :: cs =>
    if prevWS && "href=\"".data.isPrefixOf (c :: cs) then
      let after := (c :: cs).drop 6
      match after.dropWhile (fun d => d != '"') with
      | '"' :: tail => some (after.takeWhile (fun d => d != '"'), tail)
      | _ => none
    else if c = '>' then none
    else findHrefGo c.isWhitespace cs

/-- One attempted HTML-anchor match at the current position:
`<a`, one whitespace character (beginning the required `\s+`), then the
attribute walk of `findHrefGo`. -/
def htmlMatchAt (s : Str) : Option (Str × Str) :=
  match s with
  | '<' :: 'a' :: c :: rest => if c.isWhitespace then findHrefGo true rest else none
  | _ => none

/-- Scan for the HTML-anchor regex over the whole content; as with
`mdScanF`, `fuel` only serves structural termination. -/
def htmlScanF : Nat → Str → List Str
  | 0, _ => []
  | _ + 1, [] => []
  | fuel + 1, c :: cs =>
    match htmlMatchAt (c :: cs) with
    | some (url, tail) => url :: htmlScanF fuel tail
    | none => htmlScanF fuel cs

/-- All captured `href` values of the HTML-anchor regex. -/
def htmlScan (s : Str) : List Str := htmlScanF s.length s

/-- `extract_links_from_markdown(content)` from `links_404.py`:
markdown targets then HTML targets, dropping empty strings. -/
def extract_links_from_markdown (content : Str) : List Str :=
  ((mdScan content).map Prod.snd ++ htmlScan content).filter (fun l => !l.isEmpty)

/-! ## `links_404.py`: `urllib.parse.urlparse` (scheme and the IPv6 `ValueError`)

`is_internal_link` calls `urlparse(link).scheme`.  CPython's `urlsplit`
first strips leading C0-control/space characters and removes every
tab/CR/LF, then recognises a scheme `[A-Za-z][A-Za-z0-9+.-]*:` (lowercasing
it), and — when the remainder starts with `//` — splits off the network
location up to the next `/`, `?` or `#` and raises
`ValueError("Invalid IPv6 URL")` if that network location contains an
unbalanced square bracket.  (CPython additionally validates a *balanced*
bracketed host; the theorems below only ever rely on bracket-free inputs,
where the two agree.) -/

/-- Errors propagated by the Python code under consideration. -/
inductive PyErr where
  | valueError
  | osError
deriving DecidableEq

def isC0OrSpace (c : Char) : Bool := c.toNat ≤ 32

/-- The WHATWG sanitisation performed at the top of `urlsplit`. -/
def sanitizeUrl (s : Str) : Str :=
  (s.dropWhile isC0OrSpace).filter (fun c => !(c == '\t' || c == '\r' || c == '\n'))

def isSchemeChar (c : Char) : Bool :=
  c.isAlpha || c.isDigit || c == '+' || c == '-' || c == '.'

/-- Split a sanitised URL into `(scheme, rest)`; the scheme is `[]` when
none is recognised. -/
def splitScheme (u : Str) : Str × Str :=
  match u.findIdx? (fun c => c == ':') with
  | none => ([], u)
  | some i =>
    if i != 0 && (u.headD ' ').isAlpha && (u.take i).all isSchemeChar then
      ((u.take i).map Char.toLower, u.drop (i + 1))
    else ([], u)

/-- The network location: after `//`, up to the next `/`, `?` or `#`. -/
def netlocOf (rest : Str) : Str :=
  (rest.drop 2).takeWhile (fun c => !(c == '/' || c == '?' || c == '#'))

/-- Does `urlparse(link)` raise `ValueError` (unbalanced square bracket in
the network location)? -/
def urlparseRaises (link : Str) : Bool :=
  let rest := (splitScheme (sanitizeUrl link)).2
  if rest.take 2 = ['/', '/'] then
    let nl := netlocOf rest
    (nl.contains '[' && !nl.contains ']') || (nl.contains ']' && !nl.contains '[')
  else false

/-- `is_internal_link(link)` from `links_404.py`: internal iff the parsed
scheme is empty or `file`.  The call into `urlparse` can raise. -/
def is_internal_link (link : Str) : Except PyErr Bool :=
  if urlparseRaises link then .error .valueError
  else
    let sch := (splitScheme (sanitizeUrl link)).1
    .ok (sch.isEmpty || sch == "file".data)

/-! ## Filesystem model and `pathlib` helpers -/

/-- A path segment. -/
abbrev Seg := Str

/-- An absolute path, as the list of its segments from the filesystem root. -/
abbrev PathSegs := List Seg

/-- Lexical path normalisation: drop empty and `.` segments, let `..` pop
the previous segment (at the root `..` stays at the root).  In this
symlink-free model this is what the OS does when resolving a path, and what
`Path.resolve()` returns. -/
def normSegs (p : PathSegs) : PathSegs :=
  p.foldl
    (fun acc s =>
      if s.isEmpty || s == ".".data then acc
      else if s == "..".data then acc.dropLast
      else acc ++ [s]) []

/-- The filesystem: a finite list of regular files, each an absolute
normalised path with its content; `none` content means reading the file
raises (unreadable or not UTF-8-decodable). -/
structure FS where
  files : List (PathSegs × Option Str)

/-- `Path.exists()`: a path exists when, after resolution, it is a file of
the filesystem or a directory containing one (a proper prefix of a file's
path). -/
def FS.pathExists (fs : FS) (p : PathSegs) : Bool :=
  fs.files.any (fun f => (normSegs p).isPrefixOf f.1)

/-- `Path.read_text(encoding='utf-8')`: `none` means the read raises. -/
def FS.readFile (fs : FS) (p : PathSegs) : Option Str :=
  match fs.files.find? (fun f => f.1 == normSegs p) with
  | some f => f.2
  | none => none

/-- The `parts` of a relative `pathlib.Path` built from a string: split on
`/`, dropping empty and single-dot components (pathlib's normalisation),
keeping `..`. -/
def components (s : Str) : PathSegs :=
  (splitOnChar '/' s).filter (fun c => !(c.isEmpty || c == ".".data))

/-- `Path(s).name`: the last component (empty for an empty path). -/
def nameOf (s : Str) : Str := (components s).getLastD []

/-- Truthiness of `Path(s).suffix`: the name has a suffix iff its last dot
is neither the first nor the last character of the name. -/
def hasExtension (s : Str) : Bool :=
  let name := nameOf s
  match name.reverse.findIdx? (fun c => c == '.') with
  | none => false
  | some k => k != 0 && decide (k + 1 < name.length)

/-! ## `links_404.py`: `check_internal_link` (the Resolver) -/

/-- `link.split('#')[0]`. -/
def stripAnchor (s : Str) : Str := s.takeWhile (fun c => c != '#')

/-- `link.split('?')[0]`. -/
def stripQuery (s : Str) : Str := s.takeWhile (fun c => c != '?')

/-- Trailing-slash normalisation (lines 70–72): strip trailing slashes
from a multi-character path, keep the root `/` as-is. -/
def normTrailingSlash (s : Str) : Str :=
  if 1 < s.length then rstripSlash s else s

/-- `check_internal_link(link, base_path, content_root, hugo_root)` from
`links_404.py`.  `hugo_root` is accepted and never used, exactly as in the
source.  A `.error` value models an uncaught Python exception. -/
def check_internal_link (fs : FS) (link : Str)
    (base_path content_root hugo_root : PathSegs) : Except PyErr Bool :=
  if startsWithChar '#' link then .ok true
  else
    let lwa := stripAnchor link
    if lwa.isEmpty then .ok true
    else
      match is_internal_link lwa with
      | .error e => .error e
      | .ok intl =>
        if !intl then .ok true
        else
          let lwq0 := stripQuery lwa
          if lwq0.isEmpty then .ok true
          else
            let lwq := normTrailingSlash lwq0
            if startsWithChar '/' lwq then
              let path_part := lwq.dropWhile (fun c => c == '/')
              if hasExtension path_part then .ok true
              else
                let dir := content_root ++ components path_part
                .ok (fs.pathExists (dir ++ ["index.md".data]) ||
                  fs.pathExists (dir ++ ["_index.md".data]))
            else
              let rel := components lwq
              if hasExtension lwq then
                .ok (fs.pathExists (base_path.dropLast ++ rel))
              else
                .ok (fs.pathExists (base_path.dropLast ++ rel ++ ["index.md".data]))

/-! ## `links_404.py`: `find_broken_links` (the scan orchestrator) -/

/-- The inner loop of `find_broken_links` over one file's extracted links:
a link is broken when it is internal and `check_internal_link` returns
`False`; either call may raise. -/
def brokenLinksM (fs : FS) (md content_dir hugo_root : PathSegs) :
    List Str → Except PyErr (List Str)
  | [] => .ok []
  | l :: ls =>
    match is_internal_link l with
    | .error e => .error e
    | .ok intl =>
      if intl then
        match check_internal_link fs l md content_dir hugo_root with
        | .error e => .error e
        | .ok good =>
          match brokenLinksM fs md content_dir hugo_root ls with
          | .error e => .error e
          | .ok rest => .ok (if good then rest else l :: rest)
      else brokenLinksM fs md content_dir hugo_root ls

/-- `content_dir.rglob('*.md')`: the files under `content_dir` whose name
ends in `.md`, in filesystem-list order. -/
def mdFilesUnder (fs : FS) (content_dir : PathSegs) : List PathSegs :=
  (fs.files.map Prod.fst).filter
    (fun p => content_dir.isPrefixOf p && ".md".data.isSuffixOf (p.getLastD []))

/-- `p.relative_to(root)`: drop the root prefix, `none` (a `ValueError`)
when `p` is not under `root`. -/
def relTo (root p : PathSegs) : Option PathSegs :=
  if root.isPrefixOf p then some (p.drop root.length) else none

/-- The per-file loop of `find_broken_links`: read each markdown file
(aborting the scan when a read raises), collect its broken links, and when
that list is non-empty record it under `str(md_file.relative_to(hugo_root))`. -/
def scanFiles (fs : FS) (content_dir hugo_root : PathSegs) :
    List PathSegs → Except PyErr (List (Str × List Str))
  | [] => .ok []
  | md :: rest =>
    match fs.readFile md with
    | none => .error .osError
    | some ct =>
      match brokenLinksM fs md content_dir hugo_root (extract_links_from_markdown ct) with
      | .error e => .error e
      | .ok bl =>
        if bl.isEmpty then scanFiles fs content_dir hugo_root rest
        else
          match relTo hugo_root md with
          | none => .error .valueError
          | some r =>
            match scanFiles fs content_dir hugo_root rest with
            | .error e => .error e
            | .ok tailRes => .ok ((joinWith '/' r, bl) :: tailRes)

/-- `find_broken_links(content_dir, hugo_root)` from `links_404.py`. -/
def find_broken_links (fs : FS) (content_dir hugo_root : PathSegs) :
    Except PyErr (List (Str × List Str)) :=
  scanFiles fs content_dir hugo_root (mdFilesUnder fs content_dir)

/-! ## `links_404.py`: the `check_404_links` path handling (lines 148–154) -/

/-- A path as handed to the CLI: possibly relative. -/
structure PyPath where
  absolute : Bool
  segs : PathSegs
deriving DecidableEq

/-- `Path.resolve()` with the given process working directory: makes the
path absolute (resolving a relative path against the working directory)
and normalises it.  `pyJoin` below is `pathlib`'s `/` operator, whose
absolute right operand replaces the left operand. -/
def pyResolve (cwd : PathSegs) (p : PyPath) : PyPath :=
  ⟨true, if p.absolute then normSegs p.segs else normSegs (cwd ++ p.segs)⟩

/-- The content directory that `check_404_links` actually scans:
```
content_dir = content_dir.resolve()
hugo_root = hugo_root.resolve()
if not content_dir.is_absolute():
    content_dir = (hugo_root / content_dir).resolve()
```
-/
def pyJoin (a b : PyPath) : PyPath :=
  if b.absolute then b else ⟨a.absolute, a.segs ++ b.segs⟩

def scannedContentDir (cwd : PathSegs) (content_dir hugo_root : PyPath) : PyPath :=
  let cd := pyResolve cwd content_dir
  let hr := pyResolve cwd hugo_root
  if !cd.absolute then pyResolve cwd (pyJoin hr cd) else cd

/-! ## `svg.py`: `make_svg` -/

/-- Python `str(int)` rendering. -/
def intStr (i : Int) : Str := (toString i).data

/-- `make_svg(title, desc, width=…, height=…, bg=…, fg=…)` from `svg.py`.
`int(title_size * 1.25)`, `int(desc_size * 1.45)` and
`int((height - block_h) / 2 + title_size)` are computed with exact
rational arithmetic (truncating division), which agrees with the float
arithmetic of the source at these magnitudes. -/
def make_svg (title desc : Str) (width height : Nat) (bg fg : Str) : Str :=
  let margin := 80
  let title_size := 52
  let desc_size := 30
  let lh_title := title_size * 125 / 100
  let lh_desc := desc_size * 145 / 100
  let gap := 28
  let cx := width / 2
  let t_lines := wrap_by_width title title_size width margin
  let d_lines := wrap_by_width desc desc_size width margin
  let block_h := t_lines.length * lh_title +
    (if d_lines.isEmpty then 0 else gap) + d_lines.length * lh_desc
  let start_y : Int := ((height : Int) - block_h + 2 * title_size).tdiv 2
  let y_desc : Int := start_y + t_lines.length * lh_title +
    (if d_lines.isEmpty then 0 else gap)
  "<svg xmlns=\"http://www.w3.org/2000/svg\" width=\"".data ++ natStr width ++
    "\" height=\"".data ++ natStr height ++ "\" viewBox=\"0 0 ".data ++ natStr width ++
    " ".data ++ natStr height ++
    "\" preserveAspectRatio=\"xMidYMid meet\">\n  <rect width=\"100%\" height=\"100%\" fill=\"".data ++
    bg ++
    "\"/>\n  <g font-family=\"-apple-system,system-ui,Segoe UI,Roboto,Helvetica,Arial,sans-serif\" fill=\"".data ++
    fg ++ "\">\n    <text y=\"".data ++ intStr start_y ++
    "\" text-anchor=\"middle\" font-size=\"".data ++ natStr title_size ++
    "\" font-weight=\"700\" xml:space=\"preserve\">\n        ".data ++
    tspans_center t_lines lh_title cx ++
    "\n    </text>\n    <text y=\"".data ++ intStr y_desc ++
    "\" text-anchor=\"middle\" font-size=\"".data ++ natStr desc_size ++
    "\" xml:space=\"preserve\">\n        ".data ++
    tspans_center d_lines lh_desc cx ++ "\n    </text>\n  </g>\n</svg>".data

/-! ## `svg.py`: `read_frontmatter`

The YAML parser is an external collaborator (`yaml.safe_load` behind a
`try`/`except`, with `hu` falling back to a fixed-key line parser).  It is
modelled as an oracle `y : Str → YamlOutcome`: `raises` stands both for a
raised parse error and for an absent `yaml` module (both reach the fallback
parser); `nonDict` stands for a truthy non-dict result (which also falls
through to the fallback); `dict d` stands for `safe_load(...) or {}` being
the dict `d` (a falsy result such as `None` is `dict []`, which the code
returns directly). -/

inductive YamlOutcome where
  | raises
  | nonDict
  | dict (d : List (Str × Str))

/-- First occurrence of `pat`: `some (before, after)` or `none`. -/
def findSub (pat : Str) : Str → Option (Str × Str)
  | [] => if pat.isPrefixOf ([] : Str) then some ([], []) else none
  | c :: cs =>
    if pat.isPrefixOf (c :: cs) then some ([], (c :: cs).drop pat.length)
    else (findSub pat cs).map (fun p => (c :: p.1, p.2))

/-- Python `s.split(pat, maxsplit)` for a non-empty `pat`. -/
def splitOnSub (pat : Str) : Nat → Str → List Str
  | 0, s => [s]
  | n + 1, s =>
    match findSub pat s with
    | none => [s]
    | some (b, a) => b :: splitOnSub pat n a

/-- The keys recognised by the fallback frontmatter parser. -/
def fallbackKeys : List Str :=
  ["title".data, "seoTitle".data, "description".data, "summary".data, "layout".data]

/-- Python dict assignment `d[k] = v` on an insertion-ordered dict. -/
def upsert (d : List (Str × Str)) (k v : Str) : List (Str × Str) :=
  if d.any (fun kv => kv.1 == k) then
    d.map (fun kv => if kv.1 == k then (k, v) else kv)
  else d ++ [(k, v)]

/-- The fallback line parser of `read_frontmatter` (lines 49–57 of
`svg.py`): naive `key: value` splitting on each line, stripping whitespace
and surrounding quotes, keeping only the recognised keys. -/
def fallbackParse (fm : Str) : List (Str × Str) :=
  (splitOnChar '\n' fm).foldl
    (fun d line =>
      if line.contains ':' then
        let k := pyStrip (line.takeWhile (fun c => c != ':'))
        let v := stripAllChar '\''
          (stripAllChar '"' (pyStrip ((line.dropWhile (fun c => c != ':')).drop 1)))
        if fallbackKeys.contains k then upsert d k v else d
      else d) []

/-- `read_frontmatter(md_path)` from `svg.py`.  `content?` is the outcome
of `md_path.read_text(encoding="utf-8")` (`none` when the read raises —
the code catches this and returns `{}`); `y` is the YAML oracle. -/
def pyBomStrip (txt0 : Str) : Str :=
  if txt0.take 1 = ['\uFEFF'] then txt0.drop 1 else txt0

def read_frontmatter (y : Str → YamlOutcome) (content? : Option Str) :
    List (Str × Str) :=
  match content? with
  | none => []
  | some txt0 =>
    let s := lstripWS (pyBomStrip txt0)
    if "---".data.isPrefixOf s then
      match splitOnSub "---".data 2 s with
      | _ :: fmRaw :: _ :: _ =>
        (match y fmRaw with
         | .dict d => d
         | _ => fallbackParse fmRaw)
      | _ => []
    else []

/-! ## Theorems -/

/-! ### Helper lemmas about the URL model -/

theorem sanitizeUrl_sublist (s : Str) : (sanitizeUrl s).Sublist s :=
  (List.filter_sublist _).trans (List.dropWhile_sublist _)

theorem splitScheme_snd_sublist (u : Str) : (splitScheme u).2.Sublist u := by
  unfold splitScheme
  split
  · exact List.Sublist.refl u
  · split
    · exact List.drop_sublist _ u
    · exact List.Sublist.refl u

theorem netlocOf_sublist (r : Str) : (netlocOf r).Sublist r :=
  (List.takeWhile_sublist _).trans (List.drop_sublist _ _)

/-- A link containing no square bracket cannot make `urlparse` raise. -/
theorem urlparseRaises_eq_false {l : Str} (hl : '[' ∉ l) (hr : ']' ∉ l) :
    urlparseRaises l = false := by
  have hnl : (netlocOf ((splitScheme (sanitizeUrl l)).2)).Sublist l :=
    (netlocOf_sublist _).trans ((splitScheme_snd_sublist _).trans (sanitizeUrl_sublist _))
  have h1 : '[' ∉ netlocOf ((splitScheme (sanitizeUrl l)).2) :=
    fun hm => hl (hnl.subset hm)
  have h2 : ']' ∉ netlocOf ((splitScheme (sanitizeUrl l)).2) :=
    fun hm => hr (hnl.subset hm)
  unfold urlparseRaises
  dsimp only
  split
  · simp_all
  · rfl

/-- Claim C3.  The spec says a relative `content-dir` is resolved against
`hugo-root`; the code calls `content_dir.resolve()` — which resolves it
against the process working directory — *before* testing
`content_dir.is_absolute()`, so that test is always true and the
`hugo_root`-based branch is dead.  The first conjunct shows the scanned
directory is always `content_dir.resolve()` against the working directory,
whatever `hugo_root` is; the second evaluates the failing input
(cwd `/cwd`, `--content-dir content`, `--hugo-root /project`), which scans
`/cwd/content` where the spec demands `/project/content`. -/
theorem c3_relative_content_dir_resolved_against_cwd_not_hugo_root :
    (∀ cwd content_dir hugo_root,
      scannedContentDir cwd content_dir hugo_root = pyResolve cwd content_dir) ∧
    (scannedContentDir ["cwd".data] ⟨false, ["content".data]⟩ ⟨true, ["project".data]⟩ =
        ⟨true, ["cwd".data, "content".data]⟩ ∧
      (["cwd".data, "content".data] : PathSegs) ≠ ["project".data, "content".data]) := by
  constructor
  · intro cwd content_dir hugo_root
    simp [scannedContentDir, pyResolve]
  · constructor
    · rfl
    · decide

/-- Claim C8.  `read_frontmatter` is a total function of the file's read
outcome (it never propagates an exception), and it returns the empty
mapping when the read itself raises, when the (BOM-stripped, left-stripped)
text does not open a `---` frontmatter block, and when the block is
unterminated (fewer than three `---`-split parts). -/
theorem c8_read_frontmatter_empty_on_failure (y : Str → YamlOutcome)
    (content? : Option Str) :
    (content? = none → read_frontmatter y content? = []) ∧
    (∀ txt, content? = some txt →
      "---".data.isPrefixOf (lstripWS (pyBomStrip txt)) = false →
      read_frontmatter y content? = []) ∧
    (∀ txt, content? = some txt →
      (splitOnSub "---".data 2 (lstripWS (pyBomStrip txt))).length < 3 →
      read_frontmatter y content? = []) := by
  refine ⟨?_, ?_, ?_⟩
  · intro h; subst h; rfl
  · intro txt h hnp; subst h
    simp only [read_frontmatter, hnp, Bool.false_eq_true, if_false]
  · intro txt h hlen; subst h
    have hlen' : (splitOnSub ['-', '-', '-'] 2 (lstripWS (pyBomStrip txt))).length < 3 :=
      hlen
    simp only [read_frontmatter]
    split
    · split
      · next a fmRaw b t heq =>
        rw [heq] at hlen'
        simp at hlen'
        omega
      · rfl
    · rfl

/-- Witness for C8: a file whose text has no frontmatter block yields the
empty mapping. -/
theorem c8_witness :
    read_frontmatter (fun _ => YamlOutcome.raises) (some "hello world".data) = [] :=
  (c8_read_frontmatter_empty_on_failure (fun _ => YamlOutcome.raises)
    (some "hello world".data)).2.1 "hello world".data rfl (by decide)

theorem rstripSlash_prefix (s : Str) : rstripSlash s <+: s := by
  have h : (s.reverse.dropWhile (fun c => c = '/')) <:+ s.reverse :=
    List.dropWhile_suffix _
  have h2 := List.reverse_prefix.mpr h
  simpa [rstripSlash] using h2

theorem normTrailingSlash_prefix (s : Str) : normTrailingSlash s <+: s := by
  unfold normTrailingSlash
  split
  · exact rstripSlash_prefix s
  · exact List.prefix_refl s

theorem sanitizeUrl_slash (t : Str) :
    sanitizeUrl ('/' :: t) =
      '/' :: t.filter (fun c => !(c == '\t' || c == '\r' || c == '\n')) := by
  unfold sanitizeUrl
  have h1 : isC0OrSpace '/' = false := by decide
  rw [List.dropWhile_cons, h1]
  simp

/-- A URL starting with `/` has no scheme. -/
theorem splitScheme_fst_of_slash (t : Str) : (splitScheme ('/' :: t)).1 = [] := by
  unfold splitScheme
  split
  · rfl
  · have h : (('/' :: t).headD ' ').isAlpha = false := by
      have he : ('/' :: t).headD ' ' = '/' := rfl
      rw [he]; decide
    simp [h]

/-- Evaluation of the Resolver on a bracket-free link whose
anchor/query-stripped, slash-normalised form is absolute (`/<segment>`):
it reaches the leaf-bundle branch and checks `index.md` / `_index.md`
under `content_root`, unless the segment carries a file extension, in
which case it answers `True` with no disk access. -/
theorem check_absolute_eval (fs : FS) (link : Str)
    (base_path content_root hugo_root : PathSegs)
    (hl : '[' ∉ link) (hr : ']' ∉ link) (seg : Str)
    (hshape : normTrailingSlash (stripQuery (stripAnchor link)) = '/' :: seg) :
    check_internal_link fs link base_path content_root hugo_root =
      (if hasExtension (('/' :: seg).dropWhile (fun c => c == '/')) then .ok true
       else
        .ok (fs.pathExists (content_root ++
            components (('/' :: seg).dropWhile (fun c => c == '/')) ++ ["index.md".data]) ||
          fs.pathExists (content_root ++
            components (('/' :: seg).dropWhile (fun c => c == '/')) ++ ["_index.md".data]))) := by
  have hpre1 : ('/' :: seg) <+: stripQuery (stripAnchor link) := by
    rw [← hshape]; exact normTrailingSlash_prefix _
  have hpre2 : ('/' :: seg) <+: link :=
    hpre1.trans ((List.takeWhile_prefix _).trans (List.takeWhile_prefix _))
  obtain ⟨t, rfl⟩ : ∃ t, link = '/' :: t := by
    obtain ⟨r, hr'⟩ := hpre2
    exact ⟨seg ++ r, by simpa using hr'.symm⟩
  have h1 : startsWithChar '#' ('/' :: t) = false := by simp [startsWithChar]
  have hsa : stripAnchor ('/' :: t) = '/' :: t.takeWhile (fun c => c != '#') := by
    simp [stripAnchor, List.takeWhile_cons]
  have hsubA : (t.takeWhile (fun c => c != '#')).Sublist t := List.takeWhile_sublist _
  have hlA : '[' ∉ '/' :: t.takeWhile (fun c => c != '#') := by
    intro hm
    rcases List.mem_cons.mp hm with h | h
    · exact absurd h (by decide)
    · exact hl (List.mem_cons_of_mem _ (hsubA.subset h))
  have hrA : ']' ∉ '/' :: t.takeWhile (fun c => c != '#') := by
    intro hm
    rcases List.mem_cons.mp hm with h | h
    · exact absurd h (by decide)
    · exact hr (List.mem_cons_of_mem _ (hsubA.subset h))
  have hint : is_internal_link ('/' :: t.takeWhile (fun c => c != '#')) = .ok true := by
    unfold is_internal_link
    rw [urlparseRaises_eq_false hlA hrA]
    rw [sanitizeUrl_slash]
    simp [splitScheme_fst_of_slash]
  have hsq : stripQuery ('/' :: t.takeWhile (fun c => c != '#')) =
      '/' :: (t.takeWhile (fun c => c != '#')).takeWhile (fun c => c != '?') := by
    simp [stripQuery, List.takeWhile_cons]
  rw [hsa] at hshape
  simp only [check_internal_link, h1, Bool.false_eq_true, if_false, hsa, hint]
  rw [hsq] at hshape ⊢
  simp only [List.isEmpty_cons, Bool.false_eq_true, if_false, Bool.not_true, hshape]
  have hsw : startsWithChar '/' ('/' :: seg) = true := by simp [startsWithChar]
  simp only [hsw, if_true]

/-- Claim C5 (amended).  For every link string containing no square
bracket — whatever the referencing file, content root and project root —
the Resolver terminates with a boolean (no exception); as stated over *all*
link strings the claim is false, because `urlparse` raises `ValueError` for
an authority with an unbalanced bracket (see the counterexample). -/
theorem c5_resolver_total_on_bracket_free_links (fs : FS) (link : Str)
    (base_path content_root hugo_root : PathSegs)
    (hl : '[' ∉ link) (hr : ']' ∉ link) :
    ∃ b, check_internal_link fs link base_path content_root hugo_root = .ok b := by
  have hsub : (stripAnchor link).Sublist link := List.takeWhile_sublist _
  have hraise : urlparseRaises (stripAnchor link) = false :=
    urlparseRaises_eq_false (fun hm => hl (hsub.subset hm))
      (fun hm => hr (hsub.subset hm))
  simp only [check_internal_link, is_internal_link, hraise, Bool.false_eq_true, if_false]
  repeat' split
  all_goals exact ⟨_, rfl⟩

/-- Counterexample for C5 as stated: on the malformed link `//[` the
Resolver does not return a boolean — the `ValueError` raised by
`urlparse` propagates. -/
theorem c5_counterexample :
    check_internal_link ⟨[]⟩ "//[".data [] [] [] = .error .valueError := by
  rfl

/-- Witness for C5: a concrete bracket-free link on which the Resolver
returns a boolean. -/
theorem c5_witness : ∃ b, check_internal_link ⟨[]⟩ "/a".data [] [] [] = .ok b :=
  c5_resolver_total_on_bracket_free_links ⟨[]⟩ "/a".data [] [] []
    (by decide) (by decide)

/-- Claim C1 (amended).  For every content root and every bracket-free
absolute link whose anchor/query-stripped, trailing-slash-normalised form
is `/<segment>` with no file-extension suffix, the Resolver returns `True`
exactly when `content_root/<segment>/index.md` or
`content_root/<segment>/_index.md` exists.  (As stated over *all* such
links the claim fails on bracketed authorities such as `//[`, where the
URL parser raises instead of returning; see the counterexample.) -/
theorem c1_absolute_page_link_checks_index_files (fs : FS) (link : Str)
    (base_path content_root hugo_root : PathSegs)
    (hl : '[' ∉ link) (hr : ']' ∉ link) (seg : Str)
    (hshape : normTrailingSlash (stripQuery (stripAnchor link)) = '/' :: seg)
    (hext : hasExtension (('/' :: seg).dropWhile (fun c => c == '/')) = false) :
    check_internal_link fs link base_path content_root hugo_root =
      .ok (fs.pathExists (content_root ++
          components (('/' :: seg).dropWhile (fun c => c == '/')) ++ ["index.md".data]) ||
        fs.pathExists (content_root ++
          components (('/' :: seg).dropWhile (fun c => c == '/')) ++ ["_index.md".data])) := by
  rw [check_absolute_eval fs link base_path content_root hugo_root hl hr seg hshape]
  rw [hext]
  simp

/-- Counterexample for C1 as stated: `//[` is an absolute link whose
normalised segment `[` has no extension, and the `_index.md`-side file
`content/[/index.md` exists, so the claim demands `True`; the Resolver
instead propagates `ValueError` from `urlparse`. -/
theorem c1_counterexample :
    normTrailingSlash (stripQuery (stripAnchor "//[".data)) = '/' :: "/[".data ∧
    hasExtension (('/' :: "/[".data).dropWhile (fun c => c == '/')) = false ∧
    FS.pathExists ⟨[(["content".data, "[".data, "index.md".data], some [])]⟩
      (["content".data] ++ components (('/' :: "/[".data).dropWhile (fun c => c == '/')) ++
        ["index.md".data]) = true ∧
    check_internal_link ⟨[(["content".data, "[".data, "index.md".data], some [])]⟩
      "//[".data [] ["content".data] [] = .error .valueError :=
  ⟨rfl, rfl, rfl, rfl⟩

/-- Witness for C1: the link `/blog/post` against a content tree holding
`content/blog/post/index.md`. -/
theorem c1_witness :
    check_internal_link ⟨[(["content".data, "blog".data, "post".data, "index.md".data],
        some [])]⟩ "/blog/post".data ["content".data, "x".data, "index.md".data]
      ["content".data] [] =
      .ok (FS.pathExists ⟨[(["content".data, "blog".data, "post".data, "index.md".data],
          some [])]⟩ (["content".data] ++
          components (('/' :: "blog/post".data).dropWhile (fun c => c == '/')) ++
          ["index.md".data]) ||
        FS.pathExists ⟨[(["content".data, "blog".data, "post".data, "index.md".data],
          some [])]⟩ (["content".data] ++
          components (('/' :: "blog/post".data).dropWhile (fun c => c == '/')) ++
          ["_index.md".data])) :=
  c1_absolute_page_link_checks_index_files _ _ _ _ _ (by decide) (by decide)
    "blog/post".data rfl rfl

/-- Claim C6 (amended).  An absolute link whose normalised segment has a
file-extension suffix is accepted unconditionally — the conclusion holds
for *every* filesystem, i.e. no disk check is involved.  (As with C1, a
bracketed authority such as `//[.png` makes the URL parser raise before
this branch is reached, so the unrestricted claim is false; see the
counterexample.) -/
theorem c6_extension_link_valid_unconditionally (fs : FS) (link : Str)
    (base_path content_root hugo_root : PathSegs)
    (hl : '[' ∉ link) (hr : ']' ∉ link) (seg : Str)
    (hshape : normTrailingSlash (stripQuery (stripAnchor link)) = '/' :: seg)
    (hext : hasExtension (('/' :: seg).dropWhile (fun c => c == '/')) = true) :
    check_internal_link fs link base_path content_root hugo_root = .ok true := by
  rw [check_absolute_eval fs link base_path content_root hugo_root hl hr seg hshape]
  rw [hext]
  simp

/-- Counterexample for C6 as stated: `//[.png` is an absolute link whose
normalised segment `[.png` has an extension, so the claim demands `True`
unconditionally; the Resolver instead propagates `ValueError`. -/
theorem c6_counterexample :
    normTrailingSlash (stripQuery (stripAnchor "//[.png".data)) = '/' :: "/[.png".data ∧
    hasExtension (('/' :: "/[.png".data).dropWhile (fun c => c == '/')) = true ∧
    check_internal_link ⟨[]⟩ "//[.png".data [] [] [] = .error .valueError :=
  ⟨rfl, rfl, rfl⟩

/-- Witness for C6: `/images/cat.png` is accepted against an empty
filesystem. -/
theorem c6_witness :
    check_internal_link ⟨[]⟩ "/images/cat.png".data [] ["content".data] [] = .ok true :=
  c6_extension_link_valid_unconditionally _ _ _ _ _ (by decide) (by decide)
    "images/cat.png".data rfl rfl

/-! ### Escape lemmas for C2 -/

theorem escapeXml_no_lt : ∀ s : Str, '<' ∉ escapeXml s
  | [] => by simp [escapeXml]
  | c :: cs => by
    have ih := escapeXml_no_lt cs
    unfold escapeXml
    intro hm
    rcases List.mem_append.mp hm with h | h
    · split at h
      · exact absurd h (by decide)
      · split at h
        · exact absurd h (by decide)
        · split at h
          · exact absurd h (by decide)
          · next h2 =>
            next h3 =>
              rcases List.mem_singleton.mp h with rfl
              exact h3 rfl
    · exact ih h

theorem escapeXml_no_gt : ∀ s : Str, '>' ∉ escapeXml s
  | [] => by simp [escapeXml]
  | c :: cs => by
    have ih := escapeXml_no_gt cs
    unfold escapeXml
    intro hm
    rcases List.mem_append.mp hm with h | h
    · split at h
      · exact absurd h (by decide)
      · split at h
        · exact absurd h (by decide)
        · split at h
          · exact absurd h (by decide)
          · next h2 =>
            next h3 =>
              rcases List.mem_singleton.mp h with rfl
              exact h2 rfl
    · exact ih h

theorem ampEscaped_cons (c : Char) (l : Str) :
    ampEscaped (c :: l) =
      ((c != '&' || "amp;".data.isPrefixOf l || "lt;".data.isPrefixOf l ||
        "gt;".data.isPrefixOf l || "quot;".data.isPrefixOf l) && ampEscaped l) := rfl

theorem ampEscaped_append_of_no_amp {a : Str} (ha : '&' ∉ a) (b : Str) :
    ampEscaped (a ++ b) = ampEscaped b := by
  induction a with
  | nil => rfl
  | cons c cs ih =>
    have hc : (c != '&') = true := by
      have h : c ≠ '&' := fun h => ha (by rw [h]; exact List.mem_cons_self _ _)
      simpa using h
    have hcs : '&' ∉ cs := fun h => ha (List.mem_cons_of_mem c h)
    rw [List.cons_append, ampEscaped_cons, hc, ih hcs]
    simp

theorem ampEscaped_entity (ent rest : Str)
    (hpre : ("amp;".data.isPrefixOf (ent ++ rest) ||
      "lt;".data.isPrefixOf (ent ++ rest) || "gt;".data.isPrefixOf (ent ++ rest) ||
      "quot;".data.isPrefixOf (ent ++ rest)) = true)
    (hamp : '&' ∉ ent) (hrest : ampEscaped rest = true) :
    ampEscaped ('&' :: (ent ++ rest)) = true := by
  rw [ampEscaped_cons, ampEscaped_append_of_no_amp hamp, hrest]
  rw [show ('&' != '&') = false from rfl]
  simpa using hpre

theorem ampEscaped_escapeXml : ∀ s : Str, ampEscaped (escapeXml s) = true
  | [] => rfl
  | c :: cs => by
    have ih := ampEscaped_escapeXml cs
    unfold escapeXml
    by_cases h1 : c = '&'
    · subst h1
      simp only [if_pos rfl]
      show ampEscaped ('&' :: ("amp;".data ++ escapeXml cs)) = true
      refine ampEscaped_entity _ _ ?_ (by decide) ih
      have h : "amp;".data.isPrefixOf ("amp;".data ++ escapeXml cs) = true :=
        List.isPrefixOf_iff_prefix.mpr (List.prefix_append _ _)
      simp [h]
    · by_cases h2 : c = '<'
      · subst h2
        simp only [if_neg (show ('<' : Char) ≠ '&' by decide), if_pos rfl]
        show ampEscaped ('&' :: ("lt;".data ++ escapeXml cs)) = true
        refine ampEscaped_entity _ _ ?_ (by decide) ih
        have h : "lt;".data.isPrefixOf ("lt;".data ++ escapeXml cs) = true :=
          List.isPrefixOf_iff_prefix.mpr (List.prefix_append _ _)
        simp [h]
      · by_cases h3 : c = '>'
        · subst h3
          simp only [if_neg (show ('>' : Char) ≠ '&' by decide),
            if_neg (show ('>' : Char) ≠ '<' by decide), if_pos rfl]
          show ampEscaped ('&' :: ("gt;".data ++ escapeXml cs)) = true
          refine ampEscaped_entity _ _ ?_ (by decide) ih
          have h : "gt;".data.isPrefixOf ("gt;".data ++ escapeXml cs) = true :=
            List.isPrefixOf_iff_prefix.mpr (List.prefix_append _ _)
          simp [h]
        · simp only [if_neg h1, if_neg h2, if_neg h3, List.singleton_append]
          rw [ampEscaped_cons, ih]
          have hc : (c != '&') = true := by simpa using h1
          simp [hc]

/-- Claim C2 (amended).  For title/description strings containing
markup-significant characters, every `<tspan>` text body that `make_svg`
produces contains no `<`, no `>`, and no unescaped `&` (every ampersand
begins an XML entity).  The double quote, however, is *not* escaped by the
code (`xml.sax.saxutils.escape` without an entity map leaves `"` alone —
legal in XML text content); the original claim's inclusion of `"` among the
escaped characters fails, see the counterexample. -/
theorem c2_tspan_bodies_have_no_unescaped_markup (title desc : Str) (width : Nat)
    (ht : '<' ∈ title ∨ '>' ∈ title ∨ '&' ∈ title ∨ '"' ∈ title)
    (hd : '<' ∈ desc ∨ '>' ∈ desc ∨ '&' ∈ desc ∨ '"' ∈ desc) :
    ∀ b ∈ tspanBodies title desc width,
      '<' ∉ b ∧ '>' ∉ b ∧ ampEscaped b = true := by
  intro b hb
  obtain ⟨l, _, rfl⟩ := List.mem_map.mp hb
  exact ⟨escapeXml_no_lt l, escapeXml_no_gt l, ampEscaped_escapeXml l⟩

/-- Counterexample for C2 as stated: with a title and description that
contain `"`, the produced tspan bodies contain a raw, unescaped `"`. -/
theorem c2_counterexample :
    '"' ∈ "\"".data ∧ '"' ∈ "&\"".data ∧
    ∃ b ∈ tspanBodies "\"".data "&\"".data 1200, '"' ∈ b := by
  refine ⟨by decide, by decide, ?_⟩
  exact ⟨"\"".data, by decide, by decide⟩

/-- Witness for C2: concrete inputs containing `&` and `<`; the first
produced body is `&amp;`, which is fully escaped. -/
theorem c2_witness :
    '<' ∉ "&amp;".data ∧ '>' ∉ "&amp;".data ∧ ampEscaped "&amp;".data = true :=
  c2_tspan_bodies_have_no_unescaped_markup "&".data "<".data 1200
    (by decide) (by decide) "&amp;".data (by decide)

/-! ### Extractor lemmas for C10 -/

/-- Every match of the markdown-link regex has a non-empty label (the
regex uses a non-empty character class for the label). -/
theorem mdScanF_label_ne_nil :
    ∀ (fuel : Nat) (s : Str) (p : Str × Str), p ∈ mdScanF fuel s → p.1 ≠ [] := by
  intro fuel
  induction fuel with
  | zero => intro s p hp; simp [mdScanF] at hp
  | succ n ih =>
    intro s p hp
    match s with
    | [] => simp [mdScanF] at hp
    | c :: cs =>
      rw [mdScanF] at hp
      split at hp
      · split at hp
        · split at hp
          · exact ih cs p hp
          · split at hp
            · split at hp
              · exact ih cs p hp
              · rcases List.mem_cons.mp hp with h | h
                · subst h
                  intro hnil
                  have hlab : List.takeWhile (fun d => d != ']') cs = [] := hnil
                  simp_all
                · exact ih _ p h
            · exact ih cs p hp
        · exact ih cs p hp
      · exact ih cs p hp

/-- A string without `[` produces no markdown-link matches. -/
theorem mdScanF_eq_nil_of_no_lbracket :
    ∀ (fuel : Nat) (s : Str), '[' ∉ s → mdScanF fuel s = [] := by
  intro fuel
  induction fuel with
  | zero => intro s _; rfl
  | succ n ih =>
    intro s hs
    match s with
    | [] => rfl
    | c :: cs =>
      have hc : ¬ c = '[' := fun h => hs (h ▸ List.mem_cons_self c cs)
      have hcs : '[' ∉ cs := fun h => hs (List.mem_cons_of_mem c h)
      rw [mdScanF, if_neg hc]
      exact ih cs hcs

/-- An HTML-anchor match can only start at `<`. -/
theorem htmlMatchAt_eq_none_of_head_ne_lt {s : Str} (h : '<' ∉ s) :
    htmlMatchAt s = none := by
  unfold htmlMatchAt
  split
  · next => exact absurd (List.mem_cons_self _ _) h
  · rfl

/-- A string without `<` produces no HTML-anchor matches. -/
theorem htmlScanF_eq_nil_of_no_lt :
    ∀ (fuel : Nat) (s : Str), '<' ∉ s → htmlScanF fuel s = [] := by
  intro fuel
  induction fuel with
  | zero => intro s _; rfl
  | succ n ih =>
    intro s hs
    match s with
    | [] => rfl
    | c :: cs =>
      have hcs : '<' ∉ cs := fun h => hs (List.mem_cons_of_mem c h)
      rw [htmlScanF, htmlMatchAt_eq_none_of_head_ne_lt hs]
      exact ih cs hcs

/-- Claim C10.  The Link Extractor never extracts the target of a
markdown inline link with an empty label: every markdown-regex match has a
non-empty label, and a content consisting of a `[](target)` occurrence
(with a target free of the delimiter characters) contributes no link at
all, even though the target is non-empty. -/
theorem c10_empty_label_links_never_extracted :
    (∀ content : Str, ∀ p ∈ mdScan content, p.1 ≠ []) ∧
    (∀ target : Str, target ≠ [] → ')' ∉ target → '[' ∉ target → '<' ∉ target →
      extract_links_from_markdown ("[](".data ++ target ++ [')']) = []) := by
  constructor
  · intro content p hp
    exact mdScanF_label_ne_nil content.length content p hp
  · intro t _ _ hlb hlt
    show (((mdScan ('[' :: ']' :: '(' :: (t ++ [')']))).map Prod.snd ++
      htmlScan ('[' :: ']' :: '(' :: (t ++ [')']))).filter (fun l => !l.isEmpty)) = []
    have hmd : mdScan ('[' :: ']' :: '(' :: (t ++ [')'])) = [] := by
      show mdScanF ('[' :: ']' :: '(' :: (t ++ [')'])).length
        ('[' :: ']' :: '(' :: (t ++ [')'])) = []
      have hlen : ('[' :: ']' :: '(' :: (t ++ [')'])).length = t.length + 1 + 3 := by
        simp
      rw [hlen]
      show mdScanF (t.length + 1) (t ++ [')']) = []
      refine mdScanF_eq_nil_of_no_lbracket _ _ ?_
      intro hm
      rcases List.mem_append.mp hm with h | h
      · exact hlb h
      · exact absurd (List.mem_singleton.mp h) (by decide)
    have hhtml : htmlScan ('[' :: ']' :: '(' :: (t ++ [')'])) = [] := by
      refine htmlScanF_eq_nil_of_no_lt _ _ ?_
      intro hm
      rcases List.mem_cons.mp hm with h | hm
      · exact absurd h (by decide)
      rcases List.mem_cons.mp hm with h | hm
      · exact absurd h (by decide)
      rcases List.mem_cons.mp hm with h | hm
      · exact absurd h (by decide)
      rcases List.mem_append.mp hm with h | h
      · exact hlt h
      · exact absurd (List.mem_singleton.mp h) (by decide)
    rw [hmd, hhtml]
    rfl

/-- Witness for C10: the content `[](http://x)` yields no links although
its target is non-empty. -/
theorem c10_witness :
    extract_links_from_markdown ("[](".data ++ "http://x".data ++ [')']) = [] :=
  c10_empty_label_links_never_extracted.2 "http://x".data
    (by decide) (by decide) (by decide) (by decide)

/-! ### Scan-orchestrator lemmas for C9 and C4 -/

theorem scanFiles_error_of_unreadable (fs : FS) (cdir hroot : PathSegs) :
    ∀ l : List PathSegs, (∃ md ∈ l, fs.readFile md = none) →
      ∃ e, scanFiles fs cdir hroot l = .error e := by
  intro l
  induction l with
  | nil => rintro ⟨md, hmem, _⟩; simp at hmem
  | cons md rest ih =>
    rintro ⟨bad, hmem, hbad⟩
    rw [scanFiles]
    rcases List.mem_cons.mp hmem with rfl | hmem'
    · rw [hbad]
      exact ⟨.osError, rfl⟩
    · cases hread : fs.readFile md with
      | none => exact ⟨.osError, rfl⟩
      | some ct =>
        try dsimp only
        cases hbl : brokenLinksM fs md cdir hroot (extract_links_from_markdown ct) with
        | error e => exact ⟨e, rfl⟩
        | ok bl =>
          dsimp only
          obtain ⟨e, he⟩ := ih ⟨bad, hmem', hbad⟩
          by_cases hempty : bl.isEmpty
          · rw [if_pos hempty, he]
            exact ⟨e, rfl⟩
          · rw [if_neg hempty]
            cases hrel : relTo hroot md with
            | none => exact ⟨.valueError, rfl⟩
            | some r =>
              rw [he]
              exact ⟨e, rfl⟩

/-- Claim C9.  If reading (or UTF-8-decoding) any markdown file of the
scan fails, `find_broken_links` propagates the error and produces no
partial result. -/
theorem c9_unreadable_file_aborts_scan (fs : FS) (cdir hroot : PathSegs)
    (h : ∃ md ∈ mdFilesUnder fs cdir, fs.readFile md = none) :
    ∃ e, find_broken_links fs cdir hroot = .error e :=
  scanFiles_error_of_unreadable fs cdir hroot (mdFilesUnder fs cdir) h

/-- Witness for C9: a scan whose only markdown file is unreadable aborts. -/
theorem c9_witness :
    ∃ e, find_broken_links ⟨[(["r".data, "content".data, "a".data, "index.md".data],
      none)]⟩ ["r".data, "content".data] ["r".data] = .error e :=
  c9_unreadable_file_aborts_scan _ _ _
    ⟨["r".data, "content".data, "a".data, "index.md".data], by decide, rfl⟩

theorem scanFiles_ok_entries (fs : FS) (cdir hroot : PathSegs) :
    ∀ (l : List PathSegs) (res : List (Str × List Str)),
      scanFiles fs cdir hroot l = .ok res →
      ∀ kv ∈ res, ∃ md ct, md ∈ l ∧ fs.readFile md = some ct ∧
        brokenLinksM fs md cdir hroot (extract_links_from_markdown ct) = .ok kv.2 ∧
        kv.2 ≠ [] ∧ hroot.isPrefixOf md = true ∧
        kv.1 = joinWith '/' (md.drop hroot.length) := by
  intro l
  induction l with
  | nil =>
    intro res h kv hkv
    rw [scanFiles] at h
    cases h
    simp at hkv
  | cons md rest ih =>
    intro res h kv hkv
    rw [scanFiles] at h
    cases hread : fs.readFile md with
    | none => rw [hread] at h; cases h
    | some ct =>
      rw [hread] at h
      dsimp only at h
      cases hbl : brokenLinksM fs md cdir hroot (extract_links_from_markdown ct) with
      | error e => rw [hbl] at h; cases h
      | ok bl =>
        rw [hbl] at h
        dsimp only at h
        by_cases hempty : bl.isEmpty
        · rw [if_pos hempty] at h
          obtain ⟨md', ct', hmem', hrest⟩ := ih res h kv hkv
          exact ⟨md', ct', List.mem_cons_of_mem _ hmem', hrest⟩
        · rw [if_neg hempty] at h
          cases hrel : relTo hroot md with
          | none => rw [hrel] at h; cases h
          | some r =>
            rw [hrel] at h
            cases hrest : scanFiles fs cdir hroot rest with
            | error e => rw [hrest] at h; cases h
            | ok tailRes =>
              rw [hrest] at h
              cases h
              have hpre : hroot.isPrefixOf md = true ∧ r = md.drop hroot.length := by
                unfold relTo at hrel
                split at hrel
                · next hp => exact ⟨hp, (Option.some.injEq _ _ ▸ hrel).symm⟩
                · cases hrel
              rcases List.mem_cons.mp hkv with rfl | hkv'
              · refine ⟨md, ct, List.mem_cons_self _ _, hread, hbl, ?_, hpre.1, ?_⟩
                · intro hnil
                  have hnil' : bl = [] := hnil
                  rw [hnil'] at hempty
                  exact hempty rfl
                · show joinWith '/' r = joinWith '/' (md.drop hroot.length)
                  rw [hpre.2]
              · obtain ⟨md', ct', hmem', hrest'⟩ :=
                  ih tailRes hrest kv hkv'
                exact ⟨md', ct', List.mem_cons_of_mem _ hmem', hrest'⟩

/-- Claim C4 (amended).  Every entry of a successful `find_broken_links`
result belongs to a scanned markdown file: its key is that file's path
relative to **`hugo_root`** (the project root — not the content root, as
the spec's data-model section says), rendered with `/` separators, and its
value is exactly that file's non-empty broken-link list in extraction
order. -/
theorem c4_scanresult_keys_are_hugo_root_relative (fs : FS)
    (cdir hroot : PathSegs) (res : List (Str × List Str))
    (h : find_broken_links fs cdir hroot = .ok res) :
    ∀ kv ∈ res, ∃ md ct, md ∈ mdFilesUnder fs cdir ∧ fs.readFile md = some ct ∧
      brokenLinksM fs md cdir hroot (extract_links_from_markdown ct) = .ok kv.2 ∧
      kv.2 ≠ [] ∧ hroot.isPrefixOf md = true ∧
      kv.1 = joinWith '/' (md.drop hroot.length) :=
  scanFiles_ok_entries fs cdir hroot (mdFilesUnder fs cdir) res h

/-- The one-file content tree of the C4 scenario:
`/r/content/a/index.md` contains the broken link `[x](/a/b)`. -/
def fsC4 : FS :=
  ⟨[(["r".data, "content".data, "a".data, "index.md".data], some "[x](/a/b)".data)]⟩

/-- Counterexample for C4 as stated: the key recorded for
`/r/content/a/index.md` is `content/a/index.md` — its path relative to the
*project* root (`/r`) — not the content-relative `a/index.md` that the
claim asserts. -/
theorem c4_counterexample :
    find_broken_links fsC4 ["r".data, "content".data] ["r".data] =
      .ok [("content/a/index.md".data, ["/a/b".data])] ∧
    "content/a/index.md".data ≠ "a/index.md".data :=
  ⟨rfl, by decide⟩

/-- Witness for C4: the single entry of the scenario scan is attributed to
the scanned file, with its hugo-root-relative key and non-empty value. -/
theorem c4_witness :
    ∃ md ct, md ∈ mdFilesUnder fsC4 ["r".data, "content".data] ∧
      fsC4.readFile md = some ct ∧
      brokenLinksM fsC4 md ["r".data, "content".data] ["r".data]
        (extract_links_from_markdown ct) =
        .ok ("content/a/index.md".data, ["/a/b".data]).2 ∧
      ("content/a/index.md".data, ["/a/b".data]).2 ≠ [] ∧
      ["r".data].isPrefixOf md = true ∧
      ("content/a/index.md".data, ["/a/b".data]).1 =
        joinWith '/' (md.drop ["r".data].length) :=
  c4_scanresult_keys_are_hugo_root_relative fsC4 ["r".data, "content".data] ["r".data]
    [("content/a/index.md".data, ["/a/b".data])] rfl
    ("content/a/index.md".data, ["/a/b".data]) (by decide)

/-! ### Word-wrap lemmas for C7 -/

/-- A word as produced by Python `str.split()`: non-empty and
whitespace-free. -/
def pyWordOK (w : Str) : Prop := w ≠ [] ∧ ∀ c ∈ w, c.isWhitespace = false

theorem splitWGo_wordOK :
    ∀ (s acc : Str), (∀ c ∈ acc, c.isWhitespace = false) →
      ∀ w ∈ splitWGo acc s, pyWordOK w := by
  intro s
  induction s with
  | nil =>
    intro acc hacc w hw
    rw [splitWGo] at hw
    split at hw
    · simp at hw
    · next hne =>
      rcases List.mem_singleton.mp hw with rfl
      exact ⟨fun h => hne (by rw [h]; rfl), hacc⟩
  | cons c cs ih =>
    intro acc hacc w hw
    rw [splitWGo] at hw
    split at hw
    · split at hw
      · exact ih [] (by simp) w hw
      · next hne =>
        rcases List.mem_cons.mp hw with rfl | hw'
        · exact ⟨fun h => hne (by rw [h]; rfl), hacc⟩
        · exact ih [] (by simp) w hw'
    · next hc =>
      refine ih (acc ++ [c]) ?_ w hw
      intro d hd
      rcases List.mem_append.mp hd with h | h
      · exact hacc d h
      · rcases List.mem_singleton.mp h with rfl
        simpa using hc

theorem splitWGo_append_nonws (rest : Str) :
    ∀ (w acc : Str), (∀ c ∈ w, c.isWhitespace = false) →
      splitWGo acc (w ++ rest) = splitWGo (acc ++ w) rest := by
  intro w
  induction w with
  | nil => intro acc _; simp
  | cons c cw ih =>
    intro acc hw
    have hc : c.isWhitespace = false := hw c (List.mem_cons_self _ _)
    rw [List.cons_append, splitWGo, hc]
    simp only [Bool.false_eq_true, if_false]
    rw [ih (acc ++ [c]) (fun d hd => hw d (List.mem_cons_of_mem _ hd))]
    simp

theorem splitWGo_flatten_sep :
    ∀ (ws : List Str) (acc : Str), acc ≠ [] →
      (∀ c ∈ acc, c.isWhitespace = false) → (∀ w ∈ ws, pyWordOK w) →
      splitWGo acc ((ws.map (fun q => ' ' :: q)).flatten) = acc :: ws := by
  intro ws
  induction ws with
  | nil =>
    intro acc hne _ _
    have hie : ¬(acc.isEmpty = true) := fun h => hne (by simpa using h)
    simp [splitWGo, hie]
  | cons w ws' ih =>
    intro acc hne hch hws
    have hw : pyWordOK w := hws w (List.mem_cons_self _ _)
    rw [List.map_cons, List.flatten_cons, List.cons_append, splitWGo]
    have hsp : (' ' : Char).isWhitespace = true := by decide
    rw [hsp]
    have hie : ¬(acc.isEmpty = true) := fun h => hne (by simpa using h)
    simp only [if_true, hie, if_false]
    rw [splitWGo_append_nonws _ w [] hw.2]
    simp only [List.nil_append]
    rw [ih w hw.1 hw.2 (fun v hv => hws v (List.mem_cons_of_mem _ hv))]
    simp

/-- `str.split()` is a left inverse of single-space joining on lists of
proper words. -/
theorem pySplit_joinSpace (ws : List Str) (hws : ∀ w ∈ ws, pyWordOK w)
    (hne : ws ≠ []) : pySplit (joinSpace ws) = ws := by
  match ws, hne with
  | w :: ws', _ =>
    have hw : pyWordOK w := hws w (List.mem_cons_self _ _)
    show splitWGo [] (w ++ (ws'.map (fun q => ' ' :: q)).flatten) = w :: ws'
    rw [splitWGo_append_nonws _ w [] hw.2]
    simp only [List.nil_append]
    exact splitWGo_flatten_sep ws' w hw.1 hw.2
      (fun v hv => hws v (List.mem_cons_of_mem _ hv))

theorem joinSpace_append_singleton (x : Str) (xs : List Str) (w : Str) :
    joinSpace ((x :: xs) ++ [w]) = joinSpace (x :: xs) ++ ' ' :: w := by
  simp [joinSpace, joinWith, List.map_append, List.flatten_append]

theorem joinSpace_ne_nil (x : Str) (xs : List Str) (hx : x ≠ []) :
    joinSpace (x :: xs) ≠ [] := by
  intro h
  rw [show joinSpace (x :: xs) = x ++ (xs.map (fun q => ' ' :: q)).flatten from rfl] at h
  exact hx (List.append_eq_nil.mp h).1

/-- The greedy packing loop, described at the level of word chunks: with a
current line holding the words `curW` (the loop's `cur` is their
space-join), the emitted lines are the space-joins of a chunk list `L`
whose concatenation restores `curW ++ ws`; every chunk is non-empty,
consists of proper words, and — when it holds more than one word — its
join fits in the budget. -/
theorem wrapLoop_spec (maxC : Nat) :
    ∀ (ws : List Str) (curW : List Str),
      (∀ w ∈ ws, pyWordOK w) → (∀ w ∈ curW, pyWordOK w) →
      (1 < curW.length → (joinSpace curW).length ≤ maxC) →
      ∃ L : List (List Str),
        wrapLoop maxC ws (joinSpace curW) = L.map joinSpace ∧
        L.flatten = curW ++ ws ∧
        ∀ ch ∈ L, ch ≠ [] ∧ (∀ w ∈ ch, pyWordOK w) ∧
          (1 < ch.length → (joinSpace ch).length ≤ maxC) := by
  intro ws
  induction ws with
  | nil =>
    intro curW _ hcw hbud
    match curW with
    | [] => exact ⟨[], rfl, rfl, by simp⟩
    | x :: xs =>
      have hx : x ≠ [] := (hcw x (List.mem_cons_self _ _)).1
      have hie : ¬((joinSpace (x :: xs)).isEmpty = true) :=
        fun h => joinSpace_ne_nil x xs hx (by simpa using h)
      refine ⟨[x :: xs], ?_, by simp, ?_⟩
      · rw [wrapLoop, if_neg hie]
        rfl
      · intro ch hch
        rcases List.mem_singleton.mp hch with rfl
        exact ⟨by simp, hcw, hbud⟩
  | cons w ws' ih =>
    intro curW hws hcw hbud
    have hw : pyWordOK w := hws w (List.mem_cons_self _ _)
    have hws' : ∀ v ∈ ws', pyWordOK v := fun v hv => hws v (List.mem_cons_of_mem _ hv)
    have hjw : joinSpace [w] = w := by simp [joinSpace, joinWith]
    have hwOK : ∀ v ∈ [w], pyWordOK v := by
      intro v hv; rcases List.mem_singleton.mp hv with rfl; exact hw
    match curW with
    | [] =>
      have hstep : wrapLoop maxC (w :: ws') (joinSpace []) = wrapLoop maxC ws' w := by
        rw [wrapLoop]
        try dsimp only
        split
        · split <;> rfl
        · next hfalse => exact absurd rfl hfalse
      obtain ⟨L, hL1, hL2, hL3⟩ := ih [w] hws' hwOK (by simp)
      rw [hjw] at hL1
      exact ⟨L, hstep.trans hL1, by simpa using hL2, hL3⟩
    | x :: xs =>
      have hx : x ≠ [] := (hcw x (List.mem_cons_self _ _)).1
      have hie : ¬((joinSpace (x :: xs)).isEmpty = true) :=
        fun h => joinSpace_ne_nil x xs hx (by simpa using h)
      rw [wrapLoop]
      try dsimp only
      rw [if_neg hie]
      by_cases hcond :
        (joinSpace (x :: xs)).length + ([' '] ++ w).length ≤ maxC
      · rw [if_pos hcond]
        have happ : joinSpace (x :: xs) ++ ([' '] ++ w) = joinSpace ((x :: xs) ++ [w]) := by
          rw [joinSpace_append_singleton]
          rfl
        rw [happ]
        have hcwOK : ∀ v ∈ (x :: xs) ++ [w], pyWordOK v := by
          intro v hv
          rcases List.mem_append.mp hv with h | h
          · exact hcw v h
          · rcases List.mem_singleton.mp h with rfl; exact hw
        have hbud' : 1 < ((x :: xs) ++ [w]).length →
            (joinSpace ((x :: xs) ++ [w])).length ≤ maxC := by
          intro _
          rw [joinSpace_append_singleton]
          simp only [List.length_append, List.length_cons, List.length_nil] at hcond ⊢
          omega
        obtain ⟨L, hL1, hL2, hL3⟩ := ih ((x :: xs) ++ [w]) hws' hcwOK hbud'
        refine ⟨L, hL1, ?_, hL3⟩
        rw [hL2]
        simp
      · rw [if_neg hcond]
        obtain ⟨L', hL1, hL2, hL3⟩ := ih [w] hws' hwOK (by simp)
        rw [hjw] at hL1
        refine ⟨(x :: xs) :: L', ?_, ?_, ?_⟩
        · rw [if_neg hie, hL1]
          rfl
        · simp only [List.flatten_cons, hL2]
          simp
        · intro ch hch
          rcases List.mem_cons.mp hch with rfl | hch'
          · exact ⟨by simp, hcw, hbud⟩
          · exact hL3 ch hch'

/-- Claim C7 (amended).  For every text whose whitespace-split word
sequence is non-empty (a non-empty text consisting only of whitespace
yields *no* lines — see the counterexample) and every positive font size,
`wrap_by_width` returns at least one line; every line splits into at least
one word; a line holding more than one word fits in the budget
`max 8 ((width - 2*margin) * 20 / (11 * font_size))`; and the words of all
lines, concatenated in order, restore the text's word sequence. -/
theorem c7_wrap_by_width_properties (text : Str) (font_size width margin : Nat)
    (hfs : 0 < font_size) (htext : pySplit text ≠ []) :
    wrap_by_width text font_size width margin ≠ [] ∧
    (∀ l ∈ wrap_by_width text font_size width margin,
      pySplit l ≠ [] ∧
      (1 < (pySplit l).length → l.length ≤ maxCharsOf font_size width margin)) ∧
    ((wrap_by_width text font_size width margin).map pySplit).flatten = pySplit text := by
  have htne : text ≠ [] := fun h => htext (by rw [h]; rfl)
  have hwords : ∀ w ∈ pySplit text, pyWordOK w :=
    fun w hw => splitWGo_wordOK text [] (by simp) w hw
  have hie : ¬(text.isEmpty = true) := fun h => htne (by simpa using h)
  have hwrap : wrap_by_width text font_size width margin =
      wrapLoop (maxCharsOf font_size width margin) (pySplit text) [] := by
    rw [wrap_by_width, if_neg hie]
  obtain ⟨L, hL1, hL2, hL3⟩ :=
    wrapLoop_spec (maxCharsOf font_size width margin) (pySplit text) []
      hwords (by simp) (by simp)
  have hL1' : wrapLoop (maxCharsOf font_size width margin) (pySplit text) [] =
      L.map joinSpace := hL1
  simp only [List.nil_append] at hL2
  refine ⟨?_, ?_, ?_⟩
  · rw [hwrap, hL1']
    intro hmapnil
    have hLnil : L = [] := by simpa using hmapnil
    rw [hLnil] at hL2
    exact htext hL2.symm
  · intro l hl
    rw [hwrap, hL1'] at hl
    obtain ⟨ch, hch, rfl⟩ := List.mem_map.mp hl
    obtain ⟨hchne, hchw, hchbud⟩ := hL3 ch hch
    have hsplit : pySplit (joinSpace ch) = ch := pySplit_joinSpace ch hchw hchne
    rw [hsplit]
    exact ⟨hchne, hchbud⟩
  · rw [hwrap, hL1', List.map_map]
    have hmap : L.map (pySplit ∘ joinSpace) = L.map id := by
      refine List.map_congr_left ?_
      intro ch hch
      obtain ⟨hchne, hchw, _⟩ := hL3 ch hch
      show pySplit (joinSpace ch) = ch
      exact pySplit_joinSpace ch hchw hchne
    rw [hmap, List.map_id, hL2]

/-- Counterexample for C7 as stated: the text `" "` is non-empty but
consists only of whitespace, and `wrap_by_width` returns no lines at all
(only the empty *string* short-circuits, but `split()` of whitespace is
empty and the loop emits nothing). -/
theorem c7_counterexample :
    wrap_by_width " ".data 52 1200 80 = [] ∧ " ".data ≠ [] :=
  ⟨rfl, by decide⟩

/-- Witness for C7: the spec's own example, title
"The Quick Brown Fox Jumps" at font size 52, width 1200, margin 80. -/
theorem c7_witness :
    wrap_by_width "The Quick Brown Fox Jumps".data 52 1200 80 ≠ [] ∧
    ((wrap_by_width "The Quick Brown Fox Jumps".data 52 1200 80).map pySplit).flatten =
      pySplit "The Quick Brown Fox Jumps".data :=
  ⟨(c7_wrap_by_width_properties "The Quick Brown Fox Jumps".data 52 1200 80
      (by decide) (by decide)).1,
    (c7_wrap_by_width_properties "The Quick Brown Fox Jumps".data 52 1200 80
      (by decide) (by decide)).2.2⟩

end Hu
